import Mathlib

/-!
Verification development for the pattern-matching space engine of
`lib/Sema/TypeCheckSwitchStmt.cpp` (the `SpaceEngine` struct).

The engine's data model and operations are embedded shallowly:

* `Ty` models the fragment of the host compiler's `Type` that the engine
  inspects: the boolean type, tuple types, enumeration types (each case
  carrying a name, a flag for `hasInterfaceType`, and the list of payload
  component types that `decompose` turns into child spaces), and
  non-decomposable nominal types (`prim`).
* `Space` models `SpaceEngine::Space` with its five kinds.
* `Space.isSubspace`, `Space.intersect`, `Space.minus`, `Space.simplify`,
  `Space.decompose`, `SpaceEngine.flatten`, `SpaceEngine.projectPattern` and
  `SpaceEngine.checkExhaustiveness` are translated from the source
  function by function; loops over `std::forward_list` become mutual
  helper functions walking the corresponding `List`.

Termination of the mutually recursive space operations is established with
an explicit weight measure under which the decomposition of a type is
smaller than the type space itself.
-/

/-- Model of the types the space engine inspects.  An enum case is
`(name, hasInterfaceType, payloadComponentTypes)`: the payload component
list carries the types that `decompose` turns into child `Type` spaces
(a tuple payload is already spread into its component types, a
parenthesized single payload is a one-element list, a nullary case is the
empty list).  `prim` stands for any non-decomposable nominal type. -/
inductive Ty where
  | bool : Ty
  | tuple (elts : List Ty) : Ty
  | enum (name : String) (cases : List (String × Bool × List Ty)) : Ty
  | prim (name : String) : Ty

/-- An enum case declaration: name, `hasInterfaceType`, payload component types. -/
abbrev EnumCaseData := String × Bool × List Ty

mutual
/-- Decidable structural equality on `Ty`, modelling `Type::isEqual` on
canonical types. -/
def Ty.decEq : (a b : Ty) → Decidable (a = b)
  | .bool, .bool => isTrue rfl
  | .bool, .tuple _ => isFalse nofun
  | .bool, .enum _ _ => isFalse nofun
  | .bool, .prim _ => isFalse nofun
  | .tuple _, .bool => isFalse nofun
  | .tuple a, .tuple b =>
    match Ty.decEqList a b with
    | isTrue h => isTrue (by rw [h])
    | isFalse h => isFalse (fun hh => h (Ty.tuple.inj hh))
  | .tuple _, .enum _ _ => isFalse nofun
  | .tuple _, .prim _ => isFalse nofun
  | .enum _ _, .bool => isFalse nofun
  | .enum _ _, .tuple _ => isFalse nofun
  | .enum n a, .enum m b =>
    match String.decEq n m, Ty.decEqCases a b with
    | isTrue h1, isTrue h2 => isTrue (by rw [h1, h2])
    | isFalse h1, _ => isFalse (fun hh => h1 (Ty.enum.inj hh).1)
    | _, isFalse h2 => isFalse (fun hh => h2 (Ty.enum.inj hh).2)
  | .enum _ _, .prim _ => isFalse nofun
  | .prim _, .bool => isFalse nofun
  | .prim _, .tuple _ => isFalse nofun
  | .prim _, .enum _ _ => isFalse nofun
  | .prim n, .prim m =>
    match String.decEq n m with
    | isTrue h => isTrue (by rw [h])
    | isFalse h => isFalse (fun hh => h (Ty.prim.inj hh))

/-- Componentwise equality decision for lists of types. -/
def Ty.decEqList : (a b : List Ty) → Decidable (a = b)
  | [], [] => isTrue rfl
  | [], _ :: _ => isFalse nofun
  | _ :: _, [] => isFalse nofun
  | x :: xs, y :: ys =>
    match Ty.decEq x y, Ty.decEqList xs ys with
    | isTrue h1, isTrue h2 => isTrue (by rw [h1, h2])
    | isFalse h1, _ => isFalse (fun hh => h1 (List.cons.inj hh).1)
    | _, isFalse h2 => isFalse (fun hh => h2 (List.cons.inj hh).2)

/-- Componentwise equality decision for lists of enum case declarations. -/
def Ty.decEqCases : (a b : List EnumCaseData) → Decidable (a = b)
  | [], [] => isTrue rfl
  | [], _ :: _ => isFalse nofun
  | _ :: _, [] => isFalse nofun
  | (n, hb, p) :: xs, (m, hc, q) :: ys =>
    match String.decEq n m, Bool.decEq hb hc, Ty.decEqList p q, Ty.decEqCases xs ys with
    | isTrue h1, isTrue h2, isTrue h3, isTrue h4 => isTrue (by rw [h1, h2, h3, h4])
    | isFalse h1, _, _, _ => isFalse (fun hh => by cases hh; exact h1 rfl)
    | _, isFalse h2, _, _ => isFalse (fun hh => by cases hh; exact h2 rfl)
    | _, _, isFalse h3, _ => isFalse (fun hh => by cases hh; exact h3 rfl)
    | _, _, _, isFalse h4 => isFalse (fun hh => by cases hh; exact h4 rfl)
end

instance : DecidableEq Ty := Ty.decEq

/-- Model of `Type::isBool`. -/
def Ty.isBool : Ty → Bool
  | .bool => true
  | _ => false

/-- `SpaceEngine::Space::canDecompose`: tuples, the boolean type, and enums
are decomposable. -/
def Ty.canDecompose : Ty → Bool
  | .tuple _ => true
  | .bool => true
  | .enum _ _ => true
  | .prim _ => false

/-- The kinds of spaces, mirroring `SpaceEngine::SpaceKind`. -/
inductive SpaceKind where
  | empty : SpaceKind
  | type : SpaceKind
  | constructor : SpaceKind
  | disjunct : SpaceKind
  | booleanConstant : SpaceKind
  deriving DecidableEq

/-- `SpaceEngine::Space`: empty space, full type space, constructor space
(type, head identifier, child spaces; the head is the empty string for
tuples), finite disjunction, and boolean constant. -/
inductive Space where
  | empty : Space
  | type (t : Ty) : Space
  | constructor (t : Ty) (head : String) (spaces : List Space) : Space
  | disjunct (spaces : List Space) : Space
  | boolConst (b : Bool) : Space

/-- `Space::getKind`. -/
def Space.getKind : Space → SpaceKind
  | .empty => .empty
  | .type _ => .type
  | .constructor _ _ _ => .constructor
  | .disjunct _ => .disjunct
  | .boolConst _ => .booleanConstant

/-- `Space::isEmpty`: the kind is `Empty`. -/
def Space.isEmpty (s : Space) : Bool := s.getKind = SpaceKind.empty

/-- `Space::getType`.  The source asserts the kind is `Type` or
`Constructor`; other kinds never reach this accessor, and are mapped to an
arbitrary default so the model stays total. -/
def Space.getType : Space → Ty
  | .type t => t
  | .constructor t _ _ => t
  | _ => Ty.prim ""

/-- `Space::getHead`.  The source asserts the kind is `Constructor`. -/
def Space.getHead : Space → String
  | .constructor _ h _ => h
  | _ => ""

/-- `Space::getSpaces`.  The source asserts the kind is `Constructor` or
`Disjunct`; other kinds yield the empty list in the model. -/
def Space.getSpaces : Space → List Space
  | .constructor _ _ ss => ss
  | .disjunct ss => ss
  | _ => []

/-- `Space::getBoolValue`.  The source asserts the kind is `BooleanConstant`. -/
def Space.getBoolValue : Space → Bool
  | .boolConst b => b
  | _ => false

/-- `Space::decompose(Type, arr)`: booleans decompose into the two boolean
constants; an enum decomposes into one constructor space per case, where a
case whose declaration has no interface type contributes the empty space
(the `FIXME: This shouldn't happen` branch) and otherwise the children are
the type spaces of the payload component types; a tuple decomposes into a
single constructor space with an empty head.  The source asserts
`canDecompose`; non-decomposable types yield the empty list in the model. -/
def Space.decompose : Ty → List Space
  | .bool => [Space.boolConst true, Space.boolConst false]
  | .enum n cases =>
    cases.map (fun c =>
      if !c.2.1 then Space.empty
      else Space.constructor (Ty.enum n cases) c.1 (c.2.2.map Space.type))
  | .tuple elts => [Space.constructor (Ty.tuple elts) "" (elts.map Space.type)]
  | .prim _ => []

mutual
/-- Weight of a type, used only for termination: the disjunction of the
decomposition of a decomposable type weighs strictly less than the type
space itself. -/
def Ty.tw : Ty → Nat
  | .bool => 4
  | .prim _ => 1
  | .tuple elts => 4 + Ty.twList elts
  | .enum _ cases => 2 + Ty.twCases cases

/-- Sum of the weights of a list of types. -/
def Ty.twList : List Ty → Nat
  | [] => 0
  | t :: r => Ty.tw t + Ty.twList r

/-- Weight bound of a list of enum case declarations. -/
def Ty.twCases : List EnumCaseData → Nat
  | [] => 0
  | c :: r => 2 + Ty.twList c.2.2 + Ty.twCases r
end

mutual
/-- Weight of a space, used only for termination.  The type stored in a
constructor space does not count towards the weight. -/
def Space.w : Space → Nat
  | .empty => 1
  | .boolConst _ => 1
  | .type t => Ty.tw t
  | .constructor _ _ ss => 1 + Space.wList ss
  | .disjunct ss => 1 + Space.wList ss

/-- Sum of the weights of a list of spaces. -/
def Space.wList : List Space → Nat
  | [] => 0
  | s :: r => Space.w s + Space.wList r
end

theorem Ty.tw_pos (t : Ty) : 1 ≤ Ty.tw t := by
  cases t <;> simp [Ty.tw] <;> omega

theorem Space.w_pos (s : Space) : 1 ≤ Space.w s := by
  cases s <;> simp [Space.w]
  exact Ty.tw_pos _

theorem Space.wList_map_type (l : List Ty) :
    Space.wList (l.map Space.type) = Ty.twList l := by
  induction l with
  | nil => simp [Space.wList, Ty.twList]
  | cons t r ih => simp [Space.wList, Ty.twList, Space.w, ih]

theorem Space.wList_caseMap_le (T0 : Ty) (l : List EnumCaseData) :
    Space.wList (l.map (fun c =>
      if !c.2.1 then Space.empty
      else Space.constructor T0 c.1 (c.2.2.map Space.type))) ≤ Ty.twCases l := by
  induction l with
  | nil => simp [Space.wList, Ty.twCases]
  | cons c r ih =>
    simp only [List.map_cons, Space.wList, Ty.twCases]
    have hc : Space.w (if !c.2.1 then Space.empty
        else Space.constructor T0 c.1 (c.2.2.map Space.type)) ≤
        2 + Ty.twList c.2.2 := by
      by_cases hb : c.2.1 <;>
        simp [hb, Space.w, Space.wList_map_type] <;> omega
    omega

theorem Space.decompose_w_lt (t : Ty) (h : t.canDecompose = true) :
    Space.wList (Space.decompose t) + 1 < Ty.tw t := by
  cases t with
  | bool => simp [Space.decompose, Space.wList, Space.w, Ty.tw]
  | prim n => simp [Ty.canDecompose] at h
  | tuple elts =>
    simp [Space.decompose, Space.wList, Space.w, Ty.tw, Space.wList_map_type]
    omega
  | enum n cases =>
    have h := Space.wList_caseMap_le (Ty.enum n cases) cases
    simp only [Space.decompose, Ty.tw]
    exact Nat.lt_of_le_of_lt (Nat.succ_le_succ h) (by omega)

/-- The local `examineDecomp` lambda that both `intersect` and `minus`
declare (with identical bodies): an empty decomposition is the empty
space, a singleton decomposition is its single member, and otherwise the
decomposition becomes a disjunct. -/
def examineDecomp : List Space → Space
  | [] => Space.empty
  | [s] => s
  | l => Space.disjunct l

theorem examineDecomp_w_le (l : List Space) :
    Space.w (examineDecomp l) ≤ 1 + Space.wList l := by
  match l with
  | [] => simp [examineDecomp, Space.w]
  | [s] => simp [examineDecomp, Space.wList]
  | a :: b :: r => simp [examineDecomp, Space.w]

theorem examineDecomp_decompose_w_lt (t : Ty) (h : t.canDecompose = true) :
    Space.w (examineDecomp (Space.decompose t)) < Ty.tw t := by
  have h1 := examineDecomp_w_le (Space.decompose t)
  have h2 := Space.decompose_w_lt t h
  omega

theorem disjunct_decompose_w_lt (t : Ty) (h : t.canDecompose = true) :
    Space.w (Space.disjunct (Space.decompose t)) < Ty.tw t := by
  have h2 := Space.decompose_w_lt t h
  simp only [Space.w]
  omega

mutual
/-- `Space::simplify`: remove empty cases and unpack empty or singular
disjunctions. -/
def Space.simplify (s : Space) : Space :=
  match s with
  | .constructor t h ss =>
    if ss.isEmpty then Space.constructor t h ss
    else
      let simplifiedSpaces := Space.simplifyList ss
      if simplifiedSpaces.any (fun el => el.isEmpty) then Space.empty
      else Space.constructor t h simplifiedSpaces
  | .type t =>
    if t.canDecompose then
      if (Space.decompose t).isEmpty then Space.empty
      else Space.type t
    else Space.type t
  | .disjunct ss =>
    let simplifiedSpaces := Space.simplifyList ss
    match simplifiedSpaces with
    | [s1] => s1
    | other =>
      let compatifiedSpaces := other.filter (fun el => !el.isEmpty)
      match compatifiedSpaces with
      | [] => Space.empty
      | [s1] => s1
      | l => Space.disjunct l
  | s => s
termination_by (Space.w s, 0)
decreasing_by
  · simp [Space.w, Prod.lex_def]
    try omega
  · simp [Space.w, Prod.lex_def]
    try omega

/-- Componentwise simplification of a list of spaces (the `std::transform`
calls inside `simplify`). -/
def Space.simplifyList (l : List Space) : List Space :=
  match l with
  | [] => []
  | s :: r => Space.simplify s :: Space.simplifyList r
termination_by (Space.wList l, 1)
decreasing_by
  · simp [Space.wList, Prod.lex_def]
    have := Space.w_pos s
    omega
  · simp [Space.wList, Prod.lex_def]
    have := Space.w_pos s
    omega
end

mutual
/-- `Space::isSubspace`: the optimization that computes whether the
difference of this space and another space is empty.  The source handles
the `(BooleanConstant, Constructor)` pair with `llvm_unreachable`; the
model returns `false` there (the value the spec assigns to that pair),
which no reachable execution observes. -/
def Space.isSubspace (a other : Space) : Bool :=
  if a.isEmpty then true
  else if other.isEmpty then false
  else
    match a, other with
    | .disjunct ss, o =>
      -- (S1 | ... | Sn) <= S iff (S1 <= S) && ... && (Sn <= S)
      Space.allSubspaceLeft ss o
    | .type t1, .type t2 =>
      -- optimization: equal types are covered
      if t1 = t2 then true
      else
        -- (_ : Ty1) <= (_ : Ty2) iff D(Ty1) == D(Ty2)
        let step1 :=
          if h1 : t1.canDecompose then
            Space.isSubspace (Space.disjunct (Space.decompose t1)) (Space.type t2)
          else false
        if step1 then true
        else if h2 : t2.canDecompose then
          Space.isSubspace (Space.type t1) (Space.disjunct (Space.decompose t2))
        else true
    | .type t1, .disjunct ts =>
      -- (_ : Ty1) <= (S1 | ... | Sn) iff (S <= S1) || ... || (S <= Sn),
      -- else decompose Ty1 and retry
      if Space.anySubspaceRight (Space.type t1) ts then true
      else if h1 : t1.canDecompose then
        Space.isSubspace (Space.disjunct (Space.decompose t1)) (Space.disjunct ts)
      else false
    | .type t1, .constructor t2 h2 ss2 =>
      -- (_ : Ty1) <= H(p1 | ... | pn) iff D(Ty1) <= H(p1 | ... | pn)
      if h1 : t1.canDecompose then
        Space.isSubspace (Space.disjunct (Space.decompose t1)) (Space.constructor t2 h2 ss2)
      else false
    | .constructor _ _ _, .type _ =>
      -- type-checking guaranteed this constructor is a subspace of the type
      true
    | .boolConst _, .type t2 => t2.isBool
    | .constructor _ h1 ss1, .constructor _ h2 ss2 =>
      if !(h1 == h2) then false
      else if ss2.isEmpty then true
      else Space.allSubspacePairs ss1 ss2
    | .constructor t1 h1 ss1, .disjunct ts =>
      Space.anySubspaceRight (Space.constructor t1 h1 ss1) ts
    | .boolConst b1, .disjunct ts =>
      Space.anySubspaceRight (Space.boolConst b1) ts
    | .boolConst b1, .boolConst b2 => b1 == b2
    | .constructor _ _ _, .boolConst _ => false
    | .type _, .boolConst _ => false
    | .boolConst _, .constructor _ _ _ =>
      -- llvm_unreachable in the source (see the doc comment)
      false
    | .empty, _ => true
    | x, .empty => false
termination_by (Space.w a + Space.w other, 0)
decreasing_by
  · simp [Space.w, Prod.lex_def]
    try omega
  · have := disjunct_decompose_w_lt t1 h1
    simp only [Space.w] at *
    simp [Prod.lex_def]
    omega
  · have := disjunct_decompose_w_lt t2 h2
    simp only [Space.w] at *
    simp [Prod.lex_def]
    omega
  · simp [Space.w, Prod.lex_def]
    try omega
  · have := disjunct_decompose_w_lt t1 h1
    simp only [Space.w] at *
    simp [Prod.lex_def]
    omega
  · have := disjunct_decompose_w_lt t1 h1
    simp only [Space.w] at *
    simp [Prod.lex_def]
    omega
  · simp [Space.w, Prod.lex_def]
    try omega
  · simp [Space.w, Prod.lex_def]
    try omega
  · simp [Space.w, Prod.lex_def]
    try omega

/-- The conjunction loop of the `(Disjunct, _)` case of `isSubspace`. -/
def Space.allSubspaceLeft (l : List Space) (o : Space) : Bool :=
  match l with
  | [] => true
  | s :: r => Space.isSubspace s o && Space.allSubspaceLeft r o
termination_by (Space.wList l + Space.w o, 1)
decreasing_by
  · simp [Space.wList, Prod.lex_def]
    have := Space.w_pos s
    omega
  · simp [Space.wList, Prod.lex_def]
    have := Space.w_pos s
    omega

/-- The disjunction loop of the `(_, Disjunct)` cases of `isSubspace`. -/
def Space.anySubspaceRight (a : Space) (l : List Space) : Bool :=
  match l with
  | [] => false
  | s :: r => Space.isSubspace a s || Space.anySubspaceRight a r
termination_by (Space.w a + Space.wList l, 1)
decreasing_by
  · simp [Space.wList, Prod.lex_def]
    have := Space.w_pos s
    omega
  · simp [Space.wList, Prod.lex_def]
    have := Space.w_pos s
    omega

/-- The componentwise loop of the `(Constructor, Constructor)` case of
`isSubspace`; the source loop stops at the end of the shorter list and
returns `true`. -/
def Space.allSubspacePairs (l1 l2 : List Space) : Bool :=
  match l1, l2 with
  | s1 :: r1, s2 :: r2 => Space.isSubspace s1 s2 && Space.allSubspacePairs r1 r2
  | _, _ => true
termination_by (Space.wList l1 + Space.wList l2, 1)
decreasing_by
  · simp [Space.wList, Prod.lex_def]
    have := Space.w_pos s1
    have := Space.w_pos s2
    omega
  · simp [Space.wList, Prod.lex_def]
    have := Space.w_pos s1
    have := Space.w_pos s2
    omega
end

mutual
/-- `Space::intersect`: the largest shared subspace of both arguments. -/
def Space.intersect (a other : Space) : Space :=
  -- the intersection of an empty space is empty
  if a.isEmpty || other.isEmpty then Space.empty
  else
    match a, other with
    | x, .disjunct ts =>
      -- S & (S1 || ... || Sn); intersect with each member, drop empties
      examineDecomp ((Space.intersectEachRight x ts).filter (fun s => !s.isEmpty))
    | .disjunct ss, o =>
      -- (S1 || ... || Sn) & S; intersect each member, drop empties
      examineDecomp ((Space.intersectEachLeft ss o).filter (fun s => !s.isEmpty))
    | .type t1, .type t2 =>
      -- optimization: the intersection of equal types is that type
      if t1 = t2 then Space.type t2
      else if h1 : t1.canDecompose then
        Space.intersect (examineDecomp (Space.decompose t1)) (Space.type t2)
      else if h2 : t2.canDecompose then
        Space.intersect (Space.type t1) (examineDecomp (Space.decompose t2))
      else Space.type t2
    | .type t1, .constructor t2 hd2 ss2 =>
      if h1 : t1.canDecompose then
        Space.intersect (examineDecomp (Space.decompose t1)) (Space.constructor t2 hd2 ss2)
      else Space.constructor t2 hd2 ss2
    | .constructor t1 hd1 ss1, .type _ => Space.constructor t1 hd1 ss1
    | .constructor t1 hd1 ss1, .constructor _ hd2 ss2 =>
      -- optimization: mismatched heads have an empty intersection
      if !(hd1 == hd2) then Space.empty
      else if ss2.isEmpty then
        -- head-only pattern on the right covers the whole left space
        Space.constructor t1 hd1 ss1
      else
        match Space.intersectPairs ss1 ss2 with
        | none => Space.empty
        | some paramSpace => examineDecomp paramSpace
    | .boolConst b1, .boolConst b2 =>
      if b1 == b2 then Space.boolConst b1 else Space.empty
    | .boolConst b1, .type t2 =>
      if t2.isBool then Space.boolConst b1
      else if h2 : t2.canDecompose then
        Space.intersect (Space.boolConst b1) (examineDecomp (Space.decompose t2))
      else Space.empty
    | .boolConst _, .constructor _ _ _ => Space.empty
    | .type t1, .boolConst b2 =>
      if h1 : t1.canDecompose then
        Space.intersect (examineDecomp (Space.decompose t1)) (Space.boolConst b2)
      else Space.empty
    | .constructor _ _ _, .boolConst _ => Space.empty
    | .empty, _ => Space.empty
    | _, .empty => Space.empty
termination_by (Space.w a + Space.w other, 0)
decreasing_by
  · simp [Space.w, Prod.lex_def]
    try omega
  · simp [Space.w, Prod.lex_def]
    try omega
  · have := examineDecomp_decompose_w_lt t1 h1
    simp only [Space.w] at *
    simp [Prod.lex_def]
    omega
  · have := examineDecomp_decompose_w_lt t2 h2
    simp only [Space.w] at *
    simp [Prod.lex_def]
    omega
  · have := examineDecomp_decompose_w_lt t1 h1
    simp only [Space.w] at *
    simp [Prod.lex_def]
    omega
  · simp [Space.w, Prod.lex_def]
    try omega
  · have := examineDecomp_decompose_w_lt t2 h2
    simp only [Space.w] at *
    simp [Prod.lex_def]
    omega
  · have := examineDecomp_decompose_w_lt t1 h1
    simp only [Space.w] at *
    simp [Prod.lex_def]
    omega

/-- The `std::transform` loop of the `(_, Disjunct)` case of `intersect`. -/
def Space.intersectEachRight (x : Space) (l : List Space) : List Space :=
  match l with
  | [] => []
  | s :: r => Space.intersect x s :: Space.intersectEachRight x r
termination_by (Space.w x + Space.wList l, 1)
decreasing_by
  · simp [Space.wList, Prod.lex_def]
    have := Space.w_pos s
    omega
  · simp [Space.wList, Prod.lex_def]
    have := Space.w_pos s
    omega

/-- The `std::transform` loop of the `(Disjunct, _)` case of `intersect`. -/
def Space.intersectEachLeft (l : List Space) (o : Space) : List Space :=
  match l with
  | [] => []
  | s :: r => Space.intersect s o :: Space.intersectEachLeft r o
termination_by (Space.wList l + Space.w o, 1)
decreasing_by
  · simp [Space.wList, Prod.lex_def]
    have := Space.w_pos s
    omega
  · simp [Space.wList, Prod.lex_def]
    have := Space.w_pos s
    omega

/-- The componentwise loop of the `(Constructor, Constructor)` case of
`intersect`: `none` models the early `return Space()` taken when some
child intersection simplifies to the empty space. -/
def Space.intersectPairs (l1 l2 : List Space) : Option (List Space) :=
  match l1, l2 with
  | s1 :: r1, s2 :: r2 =>
    let intersection := Space.intersect s1 s2
    if (intersection.simplify).isEmpty then none
    else
      match Space.intersectPairs r1 r2 with
      | none => none
      | some rest => some (intersection :: rest)
  | _, _ => some []
termination_by (Space.wList l1 + Space.wList l2, 1)
decreasing_by
  · simp [Space.wList, Prod.lex_def]
    have := Space.w_pos s1
    have := Space.w_pos s2
    omega
  · simp [Space.wList, Prod.lex_def]
    have := Space.w_pos s1
    have := Space.w_pos s2
    omega
end

mutual
/-- `Space::minus`: the result of subtracting the other space from this
space. -/
def Space.minus (a other : Space) : Space :=
  if a.isEmpty then Space.empty
  else if other.isEmpty then a
  else
    match a, other with
    | x, .disjunct ts =>
      -- X - (S1 || ... || Sn): fold subtraction over the disjuncts
      Space.minusFold x ts
    | .disjunct ss, o =>
      -- (S1 || ... || Sn) - X: subtract from each disjunct
      examineDecomp (Space.minusEachLeft ss o)
    | .type t1, .type t2 =>
      -- optimization: equal types are covered
      if t1 = t2 then Space.empty
      else if h1 : t1.canDecompose then
        Space.intersect (examineDecomp (Space.decompose t1)) (Space.type t2)
      else if h2 : t2.canDecompose then
        Space.intersect (Space.type t1) (examineDecomp (Space.decompose t2))
      else Space.empty
    | .type t1, .constructor t2 hd2 ss2 =>
      if h1 : t1.canDecompose then
        Space.minus (examineDecomp (Space.decompose t1)) (Space.constructor t2 hd2 ss2)
      else Space.type t1
    | .constructor _ _ _, .type _ => Space.empty
    | .constructor t1 hd1 ss1, .constructor _ hd2 ss2 =>
      -- optimization: mismatched heads are disjoint
      if !(hd1 == hd2) then Space.constructor t1 hd1 ss1
      else if ss2.isEmpty then
        -- a head-only pattern covers the whole space
        Space.empty
      else Space.ctorMinusWalk t1 hd1 ss1 0 ss1 ss2 [] false
    | .boolConst b1, .boolConst b2 =>
      if b1 == b2 then Space.empty else Space.boolConst b1
    | .boolConst b1, .type t2 =>
      if t2.isBool then Space.empty
      else if h2 : t2.canDecompose then
        Space.minus (Space.boolConst b1) (examineDecomp (Space.decompose t2))
      else Space.boolConst b1
    | .boolConst b1, .constructor _ _ _ => Space.boolConst b1
    | .type t1, .boolConst b2 =>
      if h1 : t1.canDecompose then
        Space.minus (examineDecomp (Space.decompose t1)) (Space.boolConst b2)
      else Space.type t1
    | .constructor _ _ _, .boolConst _ => Space.empty
    | .empty, _ => Space.empty
    | x, .empty => x
termination_by (Space.w other, Space.w a, 0)
decreasing_by
  · simp [Space.w, Prod.lex_def]
    have := Space.w_pos x
    omega
  · simp [Space.w, Prod.lex_def]
    try omega
  · have := examineDecomp_decompose_w_lt t1 h1
    simp only [Space.w] at *
    simp [Prod.lex_def]
    omega
  · simp [Space.w, Prod.lex_def]
    try omega
  · have := examineDecomp_decompose_w_lt t2 h2
    simp only [Space.w] at *
    simp [Prod.lex_def]
    omega
  · have := examineDecomp_decompose_w_lt t1 h1
    simp only [Space.w] at *
    simp [Prod.lex_def]
    omega

/-- The `std::accumulate` left fold of the `(_, Disjunct)` case of
`minus`. -/
def Space.minusFold (acc : Space) (l : List Space) : Space :=
  match l with
  | [] => acc
  | s :: r => Space.minusFold (Space.minus acc s) r
termination_by (Space.wList l + 1, 0, 0)
decreasing_by
  · simp [Space.wList, Prod.lex_def]
    have := Space.w_pos s
    omega
  · simp [Space.wList, Prod.lex_def]
    have := Space.w_pos s
    omega

/-- The `std::transform` loop of the `(Disjunct, _)` case of `minus`. -/
def Space.minusEachLeft (l : List Space) (o : Space) : List Space :=
  match l with
  | [] => []
  | s :: r => Space.minus s o :: Space.minusEachLeft r o
termination_by (Space.w o, Space.wList l, 1)
decreasing_by
  · simp [Space.wList, Prod.lex_def]
    have := Space.w_pos s
    omega
  · simp [Space.wList, Prod.lex_def]
    have := Space.w_pos s
    omega

/-- The indexed loop of the `(Constructor, Constructor)` case of `minus`:
`orig` is the left constructor's full child list, `idx` the current index,
`l1` and `l2` the remaining left and right children, `constrSpaces` the
reconstructions accumulated so far and `foundBad` the flag recording that
some left child was not a subspace of its right counterpart. -/
def Space.ctorMinusWalk (t : Ty) (hd : String) (orig : List Space) (idx : Nat)
    (l1 l2 : List Space) (constrSpaces : List Space) (foundBad : Bool) : Space :=
  match l1, l2 with
  | s1 :: r1, s2 :: r2 =>
    -- an empty child intersection makes the two constructors disjoint
    if ((Space.intersect s1 s2).simplify).isEmpty then Space.constructor t hd orig
    else
      let foundBad2 := foundBad || !(Space.isSubspace s1 s2)
      -- copy the children and replace the child at the current index with
      -- the difference of the two child spaces
      let cs := Space.constructor t hd (orig.set idx (Space.minus s1 s2))
      Space.ctorMinusWalk t hd orig (idx + 1) r1 r2 (constrSpaces ++ [cs]) foundBad2
  | _, _ => if foundBad then examineDecomp constrSpaces else Space.empty
termination_by (Space.wList l2, Space.wList l1, 1)
decreasing_by
  · simp [Space.wList, Prod.lex_def]
    have := Space.w_pos s1
    have := Space.w_pos s2
    omega
  · simp [Space.wList, Prod.lex_def]
    have := Space.w_pos s1
    have := Space.w_pos s2
    omega
end

/-- The child filter of the `Constructor` case of `SpaceEngine::flatten`,
written exactly as in the source: `param.getKind() != SpaceKind::Constructor
|| param.getKind() != SpaceKind::Disjunct || param.getKind() !=
SpaceKind::BooleanConstant`; a child for which it is `true` is skipped by
the `continue`. -/
def SpaceEngine.flattenChildFilter (param : Space) : Bool :=
  param.getKind != SpaceKind.constructor || param.getKind != SpaceKind.disjunct
    || param.getKind != SpaceKind.booleanConstant

mutual
/-- `SpaceEngine::flatten`: unpack a space of disjunctions into its
non-disjunctive component parts.  The returned list plays the role of the
`flats` output parameter. -/
def SpaceEngine.flatten (space : Space) : List Space :=
  match space with
  | .constructor _ _ ss => SpaceEngine.flattenCtorChildren 0 ss
  | .disjunct ss => SpaceEngine.flattenList ss
  | s => [s]
termination_by (Space.w space, 0)
decreasing_by
  · simp [Space.w, Prod.lex_def]
    try omega
  · simp [Space.w, Prod.lex_def]
    try omega

/-- The indexed loop over the children of a constructor inside
`SpaceEngine::flatten`.  For a child that passes the filter the loop
`continue`s; otherwise the source runs the (never reached) body that
flattens the child and rebuilds, for each flattened space, a constructor
from that space's own type, head and child list with the child at the
current index replaced (the out-of-bounds write the source would perform
there is modelled by `List.set`, which leaves the list unchanged beyond
its length). -/
def SpaceEngine.flattenCtorChildren (i : Nat) (params : List Space) : List Space :=
  match params with
  | [] => []
  | param :: rest =>
    (if SpaceEngine.flattenChildFilter param then []
     else
       (SpaceEngine.flatten param).map (fun space =>
         Space.constructor space.getType space.getHead (space.getSpaces.set i space)))
      ++ SpaceEngine.flattenCtorChildren (i + 1) rest
termination_by (Space.wList params, 1)
decreasing_by
  all_goals simp [Space.wList, Prod.lex_def]
  all_goals try omega
  all_goals exact Space.w_pos _

/-- The loop of the `Disjunct` case of `SpaceEngine::flatten`. -/
def SpaceEngine.flattenList (l : List Space) : List Space :=
  match l with
  | [] => []
  | s :: r => SpaceEngine.flatten s ++ SpaceEngine.flattenList r
termination_by (Space.wList l, 1)
decreasing_by
  · simp [Space.wList, Prod.lex_def]
    have := Space.w_pos s
    omega
  · simp [Space.wList, Prod.lex_def]
    have := Space.w_pos s
    omega
end

/-- Model of the pattern AST fragment that `projectPattern` visits.  Each
constructor carries exactly the data the projection reads; the `ty` fields
model `Pattern::getType()`. -/
inductive Pat where
  | anyP (ty : Ty) : Pat
  | named (ty : Ty) : Pat
  | boolP (value : Bool) : Pat
  | typed (sub : Pat) : Pat
  | isP : Pat
  | exprP : Pat
  | varP (sub : Pat) : Pat
  | paren (sub : Pat) : Pat
  | optionalSome (ty : Ty) (sub : Pat) : Pat
  | enumElement (ty : Ty) (name : String) (sub : Option Pat) : Pat
  | tupleP (ty : Ty) (elts : List Pat) : Pat

/-- Model of `Pattern::getType()` for the pattern kinds whose type the
projection reads (wildcards, bindings, tuples and enum elements); wrapper
patterns delegate to their sub-pattern and the remaining kinds, whose type
the projection never reads, map to a default. -/
def Pat.getType : Pat → Ty
  | .anyP t => t
  | .named t => t
  | .boolP _ => Ty.bool
  | .typed sub => sub.getType
  | .isP => Ty.prim ""
  | .exprP => Ty.prim ""
  | .varP sub => sub.getType
  | .paren sub => sub.getType
  | .optionalSome t _ => t
  | .enumElement t _ _ => t
  | .tupleP t _ => t

/-- Model of the host compiler's `Pattern::getSemanticsProvidingPattern`
(outside the analyzed file): strip parenthesis, typed and `var` wrappers. -/
def Pat.getSemanticsProvidingPattern : Pat → Pat
  | .paren sub => sub.getSemanticsProvidingPattern
  | .typed sub => sub.getSemanticsProvidingPattern
  | .varP sub => sub.getSemanticsProvidingPattern
  | p => p

/-- The test `SP->getKind() == PatternKind::Named || SP->getKind() ==
PatternKind::Any || SP->getKind() == PatternKind::Tuple` from the `Paren`
sub-case of the `EnumElement` case of `projectPattern`. -/
def Pat.isNamedAnyOrTuple : Pat → Bool
  | .named _ => true
  | .anyP _ => true
  | .tupleP _ _ => true
  | _ => false

theorem Pat.sizeOf_getSemanticsProvidingPattern_le :
    (p : Pat) → sizeOf p.getSemanticsProvidingPattern ≤ sizeOf p
  | .paren sub => by
    have := Pat.sizeOf_getSemanticsProvidingPattern_le sub
    simp [Pat.getSemanticsProvidingPattern]
    omega
  | .typed sub => by
    have := Pat.sizeOf_getSemanticsProvidingPattern_le sub
    simp [Pat.getSemanticsProvidingPattern]
    omega
  | .varP sub => by
    have := Pat.sizeOf_getSemanticsProvidingPattern_le sub
    simp [Pat.getSemanticsProvidingPattern]
    omega
  | .anyP _ => by simp [Pat.getSemanticsProvidingPattern]
  | .named _ => by simp [Pat.getSemanticsProvidingPattern]
  | .boolP _ => by simp [Pat.getSemanticsProvidingPattern]
  | .isP => by simp [Pat.getSemanticsProvidingPattern]
  | .exprP => by simp [Pat.getSemanticsProvidingPattern]
  | .optionalSome _ _ => by simp [Pat.getSemanticsProvidingPattern]
  | .enumElement _ _ _ => by simp [Pat.getSemanticsProvidingPattern]
  | .tupleP _ _ => by simp [Pat.getSemanticsProvidingPattern]

mutual
/-- `SpaceEngine::projectPattern`: project a pattern into a space. -/
def SpaceEngine.projectPattern (item : Pat) : Space :=
  match item with
  | .anyP t => Space.type t
  | .named t => Space.type t
  | .boolP b => Space.boolConst b
  | .typed _ => Space.empty
  | .isP => Space.empty
  | .exprP => Space.empty
  | .varP sub => SpaceEngine.projectPattern sub
  | .paren sub => SpaceEngine.projectPattern sub
  | .optionalSome t sub =>
    Space.constructor t "some" [SpaceEngine.projectPattern sub]
  | .enumElement t name none =>
    -- no sub-pattern: yield the bare constructor space
    Space.constructor t name []
  | .enumElement t name (some sp) =>
    match sp with
    | .tupleP _ elts => Space.constructor t name (SpaceEngine.projectPatternList elts)
    | .paren pp =>
      let sp2 := (Pat.paren pp).getSemanticsProvidingPattern
      let conArgSpace :=
        if sp2.isNamedAnyOrTuple then
          -- special case: a single binding against a tuple payload is
          -- spread into the tuple's component type spaces
          match sp2.getType with
          | .tuple telts => telts.map Space.type
          | _ => [SpaceEngine.projectPattern sp2]
        else [SpaceEngine.projectPattern sp2]
      Space.constructor t name conArgSpace
    | sp => SpaceEngine.projectPattern sp
  | .tupleP t elts => Space.constructor t "" (SpaceEngine.projectPatternList elts)
termination_by (sizeOf item, 0)
decreasing_by
  all_goals simp [Prod.lex_def]
  all_goals try omega
  all_goals (have h1 := Pat.sizeOf_getSemanticsProvidingPattern_le (Pat.paren pp); simp at h1; omega)

/-- The `std::transform` loops of the `Tuple` cases of `projectPattern`. -/
def SpaceEngine.projectPatternList (l : List Pat) : List Space :=
  match l with
  | [] => []
  | p :: r => SpaceEngine.projectPattern p :: SpaceEngine.projectPatternList r
termination_by (sizeOf l, 1)
decreasing_by
  all_goals simp [Prod.lex_def]
  all_goals omega
end

/-- One case-label item of a switch case: its pattern, whether it carries a
guard (`getGuardExpr()` non-null), and whether it is a `default` item. -/
structure CaseLabelItem where
  pattern : Pat
  hasGuardExpr : Bool
  isDefaultItem : Bool

/-- One case block of a switch statement (`CaseStmt::getCaseLabelItems`). -/
structure CaseBlock where
  caseLabelItems : List CaseLabelItem

/-- The data of a switch statement that `checkExhaustiveness` reads: its
case blocks and the type of the subject expression. -/
structure SwitchData where
  cases : List CaseBlock
  subjectType : Ty

/-- The case-label items of all case blocks in source order. -/
def SwitchData.allItems (sw : SwitchData) : List CaseLabelItem :=
  (sw.cases.map CaseBlock.caseLabelItems).flatten

/-- The diagnostics `diagnoseMissingCases` can emit.  Per the spec the
rendering of the fix-it text is out of scope, so a diagnostic carries the
structured data it is parameterised by: `nonExhaustiveSwitch` carries the
editor-mode flag and the `uncovered.isEmpty()` argument, and
`missingParticularCase` carries the flattened space being rendered. -/
inductive Diagnostic where
  | emptySwitchStmt : Diagnostic
  | nonExhaustiveSwitch (inEditor : Bool) (uncoveredIsEmpty : Bool) : Diagnostic
  | missingParticularCase (flatSpace : Space) : Diagnostic

/-- `SpaceEngine::diagnoseMissingCases`.  `switchCasesEmpty` models
`Switch->getCases().empty()` and `inEditor` models
`Ctx.LangOpts.DiagnosticsEditorMode`.  In editor mode the source emits a
single non-exhaustive diagnostic whose fix-it buffer lists the flattened
missing cases; outside editor mode it emits the non-exhaustive diagnostic
followed by one `missing_particular_case` diagnostic per flattened space
(a space whose flattening is empty stands for itself). -/
def SpaceEngine.diagnoseMissingCases (inEditor : Bool) (switchCasesEmpty : Bool)
    (justNeedsDefault : Bool) (uncovered : Space) : List Diagnostic :=
  if justNeedsDefault then
    if switchCasesEmpty then [Diagnostic.emptySwitchStmt]
    else [Diagnostic.nonExhaustiveSwitch inEditor uncovered.isEmpty]
  else if uncovered.isEmpty then []
  else if inEditor then [Diagnostic.nonExhaustiveSwitch inEditor false]
  else
    Diagnostic.nonExhaustiveSwitch inEditor false ::
      (uncovered.getSpaces.map (fun uncoveredSpace =>
        let flats := SpaceEngine.flatten uncoveredSpace
        let flats2 := if flats.isEmpty then [uncoveredSpace] else flats
        flats2.map Diagnostic.missingParticularCase)).flatten

/-- The case-space gathering loop of `checkExhaustiveness` in normal mode:
guarded items are skipped, the projection of each remaining pattern is
collected, and a non-guarded `default` item makes the whole function
return (modelled by `none`). -/
def SpaceEngine.gatherCaseSpaces : List CaseLabelItem → Option (List Space)
  | [] => some []
  | caseItem :: rest =>
    -- a where-clause means the case does not contribute to exhaustiveness
    if caseItem.hasGuardExpr then SpaceEngine.gatherCaseSpaces rest
    else
      let projection := SpaceEngine.projectPattern caseItem.pattern
      -- the space is trivially covered with a default clause
      if caseItem.isDefaultItem then none
      else (SpaceEngine.gatherCaseSpaces rest).map (fun spaces => projection :: spaces)

/-- `SpaceEngine::checkExhaustiveness`, returning the list of emitted
diagnostics. -/
def SpaceEngine.checkExhaustiveness (limitedChecking inEditor : Bool)
    (sw : SwitchData) : List Diagnostic :=
  if limitedChecking then
    -- reject switch statements with empty blocks
    if sw.cases.isEmpty then
      SpaceEngine.diagnoseMissingCases inEditor sw.cases.isEmpty true Space.empty
    else []
  else
    match SpaceEngine.gatherCaseSpaces sw.allItems with
    | none => []
    | some spaces =>
      let totalSpace := Space.type sw.subjectType
      let coveredSpace := Space.disjunct spaces
      let uncovered := (totalSpace.minus coveredSpace).simplify
      if uncovered.isEmpty then []
      else
        match uncovered with
        | .type t =>
          -- offer the decomposition as fix-its, or a default clause
          if t.canDecompose then
            SpaceEngine.diagnoseMissingCases inEditor sw.cases.isEmpty false
              (Space.disjunct (Space.decompose t))
          else
            SpaceEngine.diagnoseMissingCases inEditor sw.cases.isEmpty true Space.empty
        | u =>
          -- if the space is not a disjunct, make it one
          let uncovered2 :=
            if u.getKind != SpaceKind.disjunct then Space.disjunct [u] else u
          SpaceEngine.diagnoseMissingCases inEditor sw.cases.isEmpty false uncovered2

mutual
/-- Spec-side predicate (from the words of the spec, for the identity law):
`s` is a space over values of the subject type `T`.  A type or constructor
space over `T` carries `T` itself, a boolean constant requires the subject
type to be boolean, the empty space is over any type, and a disjunct is
over `T` when all its members are. -/
def Space.overType (T : Ty) : Space → Prop
  | .empty => True
  | .type u => u = T
  | .constructor u _ _ => u = T
  | .boolConst _ => T.isBool = true
  | .disjunct ss => Space.overTypeList T ss

/-- Spec-side: every member of the list is a space over `T`. -/
def Space.overTypeList (T : Ty) : List Space → Prop
  | [] => True
  | s :: r => Space.overType T s ∧ Space.overTypeList T r
end

/-- Spec-side description (from the words of the claim about constructor
subtraction) of the list of reconstructions: walking the two child lists
in parallel, the reconstruction at index `idx` is the left constructor
with only the child at `idx` replaced by the difference of the two child
spaces. -/
def Space.reconList (t : Ty) (hd : String) (orig : List Space) :
    Nat → List Space → List Space → List Space
  | idx, s1 :: r1, s2 :: r2 =>
    Space.constructor t hd (orig.set idx (Space.minus s1 s2)) ::
      Space.reconList t hd orig (idx + 1) r1 r2
  | _, _, _ => []

theorem Space.isEmpty_iff (s : Space) : s.isEmpty = true ↔ s = Space.empty := by
  cases s <;> simp [Space.isEmpty, Space.getKind]

theorem Space.isEmpty_empty : Space.empty.isEmpty = true := rfl

theorem Space.simplify_empty : Space.empty.simplify = Space.empty := by
  rw [Space.simplify.eq_def]

theorem Space.simplifyList_length (l : List Space) :
    (Space.simplifyList l).length = l.length := by
  induction l with
  | nil => rw [Space.simplifyList.eq_def]
  | cons s r ih =>
    rw [Space.simplifyList.eq_def]
    simp [ih]

theorem Space.simplifyList_mem {x : Space} {l : List Space}
    (hx : x ∈ Space.simplifyList l) : ∃ m ∈ l, x = m.simplify := by
  induction l with
  | nil => rw [Space.simplifyList.eq_def] at hx; simp at hx
  | cons s r ih =>
    rw [Space.simplifyList.eq_def] at hx
    simp at hx
    rcases hx with h | h
    · exact ⟨s, by simp, h⟩
    · rcases ih h with ⟨m, hm, he⟩
      exact ⟨m, by simp [hm], he⟩

theorem Space.w_le_wList_of_mem {m : Space} {l : List Space} (h : m ∈ l) :
    Space.w m ≤ Space.wList l := by
  induction l with
  | nil => simp at h
  | cons s r ih =>
    simp at h
    rcases h with rfl | h
    · simp [Space.wList]
    · have := ih h
      simp [Space.wList]
      omega

/-- C10: for every type `T` and every boolean `b`,
`isSubspace(Type(T), BoolConst(b))` returns `false` — including when `T`
is the boolean type: the `(Type, BooleanConstant)` arm of `isSubspace`
returns `false` directly, without attempting any decomposition of `T`. -/
theorem c10_type_never_subspace_of_boolConst (t : Ty) (b : Bool) :
    (Space.type t).isSubspace (Space.boolConst b) = false := by
  rw [Space.isSubspace.eq_def]
  simp [Space.isEmpty, Space.getKind]

theorem flattenChildFilter_true (s : Space) :
    SpaceEngine.flattenChildFilter s = true := by
  cases s <;> rfl

theorem flattenCtorChildren_nil (i : Nat) (ss : List Space) :
    SpaceEngine.flattenCtorChildren i ss = [] := by
  induction ss generalizing i with
  | nil => rw [SpaceEngine.flattenCtorChildren.eq_def]
  | cons p r ih =>
    rw [SpaceEngine.flattenCtorChildren.eq_def]
    simp [flattenChildFilter_true, ih]

/-- C4: in the source, `flatten` applied to a `Constructor` space never
recurses into any child: the child filter
`kind != Constructor || kind != Disjunct || kind != BooleanConstant` is
`true` for every space, so every child is skipped by the `continue` and
the `Constructor` case contributes no entries to the output list. -/
theorem c4_flatten_constructor_contributes_nothing :
    (∀ s : Space, SpaceEngine.flattenChildFilter s = true) ∧
    ∀ (t : Ty) (hd : String) (ss : List Space),
      SpaceEngine.flatten (Space.constructor t hd ss) = [] := by
  refine ⟨flattenChildFilter_true, fun t hd ss => ?_⟩
  rw [SpaceEngine.flatten.eq_def]
  exact flattenCtorChildren_nil 0 ss

/-- C8: with `limitedChecking` set, `checkExhaustiveness` emits the
empty-switch diagnostic and returns when the switch has zero cases, and
returns without emitting any diagnostic when the switch has at least one
case. -/
theorem c8_limited_checking (inEditor : Bool) (sw : SwitchData) :
    SpaceEngine.checkExhaustiveness true inEditor sw =
      if sw.cases.isEmpty then [Diagnostic.emptySwitchStmt] else [] := by
  by_cases h : sw.cases.isEmpty <;>
    simp [SpaceEngine.checkExhaustiveness, SpaceEngine.diagnoseMissingCases, h]

/-- C9: `decompose` applied to an enum type produces one space per declared
case, in declaration order; a case missing its interface type contributes
the `Empty` space at its position, and every other case still contributes
its constructor space, so the decomposition proceeds without aborting. -/
theorem c9_decompose_enum_malformed_cases (n : String) (cases : List EnumCaseData) :
    (Space.decompose (Ty.enum n cases)).length = cases.length ∧
    ∀ i : Nat,
      (Space.decompose (Ty.enum n cases))[i]? =
        (cases[i]?).map (fun c =>
          if c.2.1 = false then Space.empty
          else Space.constructor (Ty.enum n cases) c.1 (c.2.2.map Space.type)) := by
  constructor
  · simp [Space.decompose]
  · intro i
    simp only [Space.decompose, List.getElem?_map]
    cases h : cases[i]? with
    | none => rfl
    | some c =>
      by_cases hc : c.2.1 <;> simp [hc]

/-- C3: the failing input for the subspace-subtraction law.  With
`a = Type(enum E with the single nullary case a)` and
`b = Type(prim X)` (a non-decomposable nominal type), `isSubspace(a, b)`
returns `true` — its own documentation says this means the difference is
empty — yet `simplify(a.minus(b))` is the constructor space `E.a`, not
`Empty`: the decomposable branch of the `(Type, Type)` case of `minus`
calls `intersect` where the subtraction recursion is intended. -/
theorem c3_failing_input_evaluation :
    (Space.type (Ty.enum "E" [("a", true, [])])).isSubspace
        (Space.type (Ty.prim "X")) = true ∧
    ((Space.type (Ty.enum "E" [("a", true, [])])).minus
        (Space.type (Ty.prim "X"))).simplify =
      Space.constructor (Ty.enum "E" [("a", true, [])]) "a" [] ∧
    ((Space.type (Ty.enum "E" [("a", true, [])])).minus
        (Space.type (Ty.prim "X"))).simplify ≠ Space.empty := by
  have h2 : ((Space.type (Ty.enum "E" [("a", true, [])])).minus
      (Space.type (Ty.prim "X"))).simplify =
      Space.constructor (Ty.enum "E" [("a", true, [])]) "a" [] := by
    simp [Space.minus.eq_def, Space.isEmpty, Space.getKind, Ty.canDecompose,
      Space.decompose, examineDecomp, Space.intersect.eq_def, Space.simplify.eq_def,
      Space.simplifyList.eq_def, Ty.isBool]
  refine ⟨?_, h2, ?_⟩
  · simp [Space.isSubspace.eq_def, Space.isEmpty, Space.getKind, Ty.canDecompose,
      Space.decompose, Space.allSubspaceLeft.eq_def]
  · rw [h2]
    exact fun h => Space.noConfusion h

/-- C1 counterexample: the claim says that for unequal types the
subtraction recurses on the decomposition of the decomposable side, so
that `Type(Bool) − Type(U)` for a non-decomposable unrelated `U` leaves
the decomposition of `Bool` uncovered.  On the code, that subtraction
returns `Empty` (first conjunct); the subtraction recursion the claim
describes would instead leave the whole decomposition
`(true | false)` uncovered (second conjunct). -/
theorem c1_counterexample_bool_minus_prim :
    (Space.type Ty.bool).minus (Space.type (Ty.prim "U")) = Space.empty ∧
    (Space.disjunct (Space.decompose Ty.bool)).minus (Space.type (Ty.prim "U")) =
      Space.disjunct [Space.boolConst true, Space.boolConst false] := by
  constructor
  · simp [Space.minus.eq_def, Space.isEmpty, Space.getKind, Ty.canDecompose,
      Space.decompose, examineDecomp, Space.intersect.eq_def,
      Space.intersectEachLeft.eq_def, Space.intersectEachRight.eq_def, Ty.isBool]
  · simp [Space.minus.eq_def, Space.isEmpty, Space.getKind, Ty.canDecompose,
      Space.decompose, examineDecomp, Space.minusEachLeft.eq_def, Ty.isBool]

/-- C1 (amended): `Type(T) − Type(U)` returns `Empty` when the types are
equal; otherwise, when a side is decomposable, that side is decomposed and
the result is the *intersection* of the decomposition with the other side
(not a recursive subtraction); and when neither side is decomposable the
result is `Empty`. -/
theorem c1_type_minus_type_amended (t1 t2 : Ty) :
    (Space.type t1).minus (Space.type t2) =
      if t1 = t2 then Space.empty
      else if t1.canDecompose then
        (examineDecomp (Space.decompose t1)).intersect (Space.type t2)
      else if t2.canDecompose then
        (Space.type t1).intersect (examineDecomp (Space.decompose t2))
      else Space.empty := by
  rw [Space.minus.eq_def]
  simp only [Space.isEmpty, Space.getKind]
  split_ifs <;> simp_all

/-- Spec-side transformation for the guard-skipping law: the same switch
with every guarded case-label item removed. -/
def SwitchData.withoutGuardedItems (sw : SwitchData) : SwitchData :=
  { sw with
    cases := sw.cases.map (fun cb =>
      ⟨cb.caseLabelItems.filter (fun it => !it.hasGuardExpr)⟩) }

theorem flatten_map_filter {α β : Type} (p : α → Bool) (f : β → List α) (l : List β) :
    (l.map (fun b => (f b).filter p)).flatten = ((l.map f).flatten).filter p := by
  induction l <;> simp [*, List.filter_append]

theorem allItems_withoutGuardedItems (sw : SwitchData) :
    sw.withoutGuardedItems.allItems =
      sw.allItems.filter (fun it => !it.hasGuardExpr) := by
  simp only [SwitchData.withoutGuardedItems, SwitchData.allItems, List.map_map]
  have := flatten_map_filter (fun it => !it.hasGuardExpr)
    CaseBlock.caseLabelItems sw.cases
  simpa [Function.comp] using this

theorem gather_filter_guarded (l : List CaseLabelItem) :
    SpaceEngine.gatherCaseSpaces (l.filter (fun it => !it.hasGuardExpr)) =
      SpaceEngine.gatherCaseSpaces l := by
  induction l with
  | nil => simp
  | cons it r ih =>
    by_cases hg : it.hasGuardExpr <;>
      simp [SpaceEngine.gatherCaseSpaces, hg, ih]

theorem gather_default_none {l : List CaseLabelItem}
    (h : ∃ it ∈ l, it.hasGuardExpr = false ∧ it.isDefaultItem = true) :
    SpaceEngine.gatherCaseSpaces l = none := by
  induction l with
  | nil => simp at h
  | cons it r ih =>
    rcases h with ⟨w, hw, hwg, hwd⟩
    simp at hw
    rcases hw with rfl | hw
    · simp [SpaceEngine.gatherCaseSpaces, hwg, hwd]
    · by_cases hg : it.hasGuardExpr <;>
        by_cases hd : it.isDefaultItem <;>
        simp [SpaceEngine.gatherCaseSpaces, hg, hd, ih ⟨w, hw, hwg, hwd⟩]

/-- C5: in normal (non-limited) mode, `checkExhaustiveness` skips every
case-label item that carries a guard expression — removing all guarded
items from the switch leaves the result unchanged — and returns without
emitting any diagnostic whenever some non-guarded `default` case-label
item occurs. -/
theorem c5_normal_mode_guards_and_default (inEditor : Bool) (sw : SwitchData) :
    SpaceEngine.checkExhaustiveness false inEditor sw.withoutGuardedItems =
      SpaceEngine.checkExhaustiveness false inEditor sw ∧
    ((∃ it ∈ sw.allItems, it.hasGuardExpr = false ∧ it.isDefaultItem = true) →
      SpaceEngine.checkExhaustiveness false inEditor sw = []) := by
  constructor
  · have hg : SpaceEngine.gatherCaseSpaces sw.withoutGuardedItems.allItems =
        SpaceEngine.gatherCaseSpaces sw.allItems := by
      rw [allItems_withoutGuardedItems, gather_filter_guarded]
    have hc : sw.withoutGuardedItems.cases.isEmpty = sw.cases.isEmpty := by
      cases h : sw.cases <;> simp [SwitchData.withoutGuardedItems, h]
    have hs : sw.withoutGuardedItems.subjectType = sw.subjectType := rfl
    simp only [SpaceEngine.checkExhaustiveness, hg, hc, hs]
  · intro hex
    have hnone := gather_default_none hex
    simp [SpaceEngine.checkExhaustiveness, hnone]

/-- C5 witness: a switch whose single case-label item is an unguarded
`default` produces no diagnostics in normal mode. -/
theorem c5_witness :
    SpaceEngine.checkExhaustiveness false false
      ⟨[⟨[⟨Pat.anyP (Ty.prim "Int"), false, true⟩]⟩], Ty.prim "Int"⟩ = [] := by
  have h := (c5_normal_mode_guards_and_default false
    ⟨[⟨[⟨Pat.anyP (Ty.prim "Int"), false, true⟩]⟩], Ty.prim "Int"⟩).2
  exact h ⟨⟨Pat.anyP (Ty.prim "Int"), false, true⟩, by simp [SwitchData.allItems], rfl, rfl⟩

theorem disjunct_simplify_eq (l : List Space) :
    (Space.disjunct l).simplify =
      examineDecomp ((Space.simplifyList l).filter (fun s => !s.isEmpty)) := by
  rw [Space.simplify.eq_def]
  simp only
  cases hK : Space.simplifyList l with
  | nil => simp [examineDecomp]
  | cons x xs =>
    cases xs with
    | nil =>
      by_cases hx : x.isEmpty
      · simp [hx, examineDecomp]
        exact (Space.isEmpty_iff x).1 hx
      · simp [hx, examineDecomp]
    | cons y ys =>
      simp only
      cases hC : (x :: y :: ys).filter (fun s => !s.isEmpty) with
      | nil => simp [examineDecomp]
      | cons z zs =>
        cases zs with
        | nil => simp [examineDecomp]
        | cons w ws => simp [examineDecomp]

theorem Space.simplifyList_nil : Space.simplifyList [] = [] := by
  rw [Space.simplifyList.eq_def]

theorem Space.simplifyList_cons (s : Space) (r : List Space) :
    Space.simplifyList (s :: r) = s.simplify :: Space.simplifyList r := by
  rw [Space.simplifyList.eq_def]

theorem Space.intersectEachLeft_nil (o : Space) :
    Space.intersectEachLeft [] o = [] := by
  rw [Space.intersectEachLeft.eq_def]

theorem Space.intersectEachLeft_cons (s : Space) (r : List Space) (o : Space) :
    Space.intersectEachLeft (s :: r) o =
      s.intersect o :: Space.intersectEachLeft r o := by
  rw [Space.intersectEachLeft.eq_def]

theorem filter_simplifyList_filter (l : List Space) :
    (Space.simplifyList (l.filter (fun s => !s.isEmpty))).filter (fun s => !s.isEmpty) =
      (Space.simplifyList l).filter (fun s => !s.isEmpty) := by
  induction l with
  | nil => simp [Space.simplifyList_nil]
  | cons s r ih =>
    by_cases hs : s.isEmpty
    · have hse := (Space.isEmpty_iff s).1 hs
      subst hse
      simp [Space.simplifyList_cons, Space.simplify_empty, Space.isEmpty_empty, ih]
    · simp only [List.filter_cons, hs, Bool.not_false, if_pos, Space.simplifyList_cons]
      by_cases hss : (Space.simplify s).isEmpty <;>
        simp [hss, ih]

theorem examineDecomp_filter_simplify (ms : List Space) :
    (examineDecomp (ms.filter (fun s => !s.isEmpty))).simplify =
      examineDecomp ((Space.simplifyList ms).filter (fun s => !s.isEmpty)) := by
  rw [← filter_simplifyList_filter ms]
  cases hM : ms.filter (fun s => !s.isEmpty) with
  | nil =>
    rw [Space.simplifyList_nil]
    simp [examineDecomp, Space.simplify_empty]
  | cons x xs =>
    cases xs with
    | nil =>
      rw [Space.simplifyList_cons, Space.simplifyList_nil]
      by_cases hx : (Space.simplify x).isEmpty
      · simp [List.filter_cons, hx, examineDecomp]
        exact (Space.isEmpty_iff _).1 hx
      · simp [List.filter_cons, hx, examineDecomp]
    | cons y ys =>
      have he : examineDecomp (x :: y :: ys) = Space.disjunct (x :: y :: ys) := by
        simp [examineDecomp]
      rw [he, disjunct_simplify_eq (x :: y :: ys)]

theorem Space.intersect_disjunct_type (ss : List Space) (T : Ty) :
    (Space.disjunct ss).intersect (Space.type T) =
      examineDecomp ((Space.intersectEachLeft ss (Space.type T)).filter
        (fun s => !s.isEmpty)) := by
  rw [Space.intersect.eq_def]
  rfl

theorem overTypeList_mem {T : Ty} {l : List Space} (h : Space.overTypeList T l) :
    ∀ m ∈ l, Space.overType T m := by
  induction l with
  | nil => simp
  | cons s r ih =>
    rw [Space.overTypeList.eq_def] at h
    intro m hm
    simp at hm
    rcases hm with rfl | hm
    · exact h.1
    · exact ih h.2 m hm

theorem simplifyList_intersectEachLeft (T : Ty) (l : List Space)
    (h : ∀ m ∈ l, (m.intersect (Space.type T)).simplify = m.simplify) :
    Space.simplifyList (Space.intersectEachLeft l (Space.type T)) =
      Space.simplifyList l := by
  induction l with
  | nil => rw [Space.intersectEachLeft_nil]
  | cons m r ih =>
    rw [Space.intersectEachLeft_cons, Space.simplifyList_cons,
      Space.simplifyList_cons]
    rw [h m (by simp), ih (fun m hm => h m (by simp [hm]))]

theorem intersect_type_simplify_aux :
    ∀ (n : Nat) (T : Ty) (s : Space), Space.w s ≤ n → Space.overType T s →
      (s.intersect (Space.type T)).simplify = s.simplify := by
  intro n
  induction n with
  | zero =>
    intro T s hw _
    have := Space.w_pos s
    omega
  | succ n ih =>
    intro T s hw hover
    cases s with
    | empty =>
      rw [Space.intersect.eq_def]
      simp [Space.isEmpty, Space.getKind]
    | type u =>
      rw [Space.overType.eq_def] at hover
      simp only at hover
      subst hover
      rw [Space.intersect.eq_def]
      simp [Space.isEmpty, Space.getKind]
    | constructor u hd ss =>
      rw [Space.intersect.eq_def]
      simp [Space.isEmpty, Space.getKind]
    | boolConst b =>
      rw [Space.overType.eq_def] at hover
      simp only at hover
      have hT : T = Ty.bool := by
        cases T <;> simp [Ty.isBool] at hover <;> rfl
      subst hT
      rw [Space.intersect.eq_def]
      simp [Space.isEmpty, Space.getKind, Ty.isBool]
    | disjunct ss =>
      have hmem : ∀ m ∈ ss, (m.intersect (Space.type T)).simplify = m.simplify := by
        intro m hm
        have h1 : Space.w m ≤ Space.wList ss := Space.w_le_wList_of_mem hm
        have h2 : Space.w (Space.disjunct ss) ≤ n + 1 := hw
        have h3 : Space.w m ≤ n := by
          simp [Space.w] at h2
          omega
        rw [Space.overType.eq_def] at hover
        simp only at hover
        exact ih T m h3 (overTypeList_mem hover m hm)
      rw [Space.intersect_disjunct_type]
      rw [examineDecomp_filter_simplify]
      rw [simplifyList_intersectEachLeft T ss hmem]
      rw [← disjunct_simplify_eq]

/-- C6: the identity laws.  For every space `s` over the subject type,
`simplify(intersect(s, Type(subjectType)))` equals `simplify(s)`; for
every space `s`, `minus(s, Empty)` returns `s` unchanged and
`minus(Empty, s)` returns `Empty`. -/
theorem c6_identity_laws (T : Ty) (s : Space) :
    (Space.overType T s → (s.intersect (Space.type T)).simplify = s.simplify) ∧
    s.minus Space.empty = s ∧
    Space.empty.minus s = Space.empty := by
  refine ⟨fun h => intersect_type_simplify_aux (Space.w s) T s le_rfl h, ?_, ?_⟩
  · cases s <;> simp [Space.minus.eq_def, Space.isEmpty, Space.getKind]
  · rw [Space.minus.eq_def]
    simp [Space.isEmpty, Space.getKind]

/-- C6 witness: the three identity laws evaluated at the boolean subject
type and the space `BoolConst(true)`. -/
theorem c6_witness :
    ((Space.boolConst true).intersect (Space.type Ty.bool)).simplify =
      (Space.boolConst true).simplify ∧
    (Space.boolConst true).minus Space.empty = Space.boolConst true ∧
    Space.empty.minus (Space.boolConst true) = Space.empty := by
  have h := c6_identity_laws Ty.bool (Space.boolConst true)
  exact ⟨h.1 (by rw [Space.overType.eq_def]; simp [Ty.isBool]), h.2.1, h.2.2⟩

theorem Space.simplify_boolConst (b : Bool) :
    (Space.boolConst b).simplify = Space.boolConst b := by
  rw [Space.simplify.eq_def]

theorem Space.simplify_type (t : Ty) :
    (Space.type t).simplify =
      if t.canDecompose then
        if (Space.decompose t).isEmpty then Space.empty else Space.type t
      else Space.type t := by
  rw [Space.simplify.eq_def]

theorem Space.simplify_constructor (t : Ty) (hd : String) (ss : List Space) :
    (Space.constructor t hd ss).simplify =
      if ss.isEmpty then Space.constructor t hd ss
      else if (Space.simplifyList ss).any (fun el => el.isEmpty) then Space.empty
      else Space.constructor t hd (Space.simplifyList ss) := by
  rw [Space.simplify.eq_def]

theorem simplifyList_eq_self_of (l : List Space) (h : ∀ x ∈ l, x.simplify = x) :
    Space.simplifyList l = l := by
  induction l with
  | nil => exact Space.simplifyList_nil
  | cons s r ih =>
    rw [Space.simplifyList_cons, h s (by simp),
      ih (fun x hx => h x (by simp [hx]))]

theorem simplify_idem_aux :
    ∀ (n : Nat) (s : Space), Space.w s ≤ n → s.simplify.simplify = s.simplify := by
  intro n
  induction n with
  | zero =>
    intro s hw
    have := Space.w_pos s
    omega
  | succ n ih =>
    intro s hw
    cases s with
    | empty => simp [Space.simplify_empty]
    | boolConst b => simp [Space.simplify_boolConst]
    | type t =>
      rw [Space.simplify_type]
      by_cases h1 : t.canDecompose
      · by_cases h2 : (Space.decompose t).isEmpty
        · simp [h1, h2, Space.simplify_empty]
        · simp [h1, h2, Space.simplify_type]
      · simp [h1, Space.simplify_type]
    | constructor t hd ss =>
      have hK : ∀ m ∈ ss, m.simplify.simplify = m.simplify := by
        intro m hm
        have h1 := Space.w_le_wList_of_mem hm
        have h2 : Space.w (Space.constructor t hd ss) ≤ n + 1 := hw
        apply ih
        simp [Space.w] at h2
        omega
      rw [Space.simplify_constructor]
      by_cases hss : ss.isEmpty
      · simp [hss, Space.simplify_constructor]
      · by_cases hany : (Space.simplifyList ss).any (fun el => el.isEmpty)
        · simp [hss, hany, Space.simplify_empty]
        · simp only [hss, hany, Bool.false_eq_true, if_false]
          rw [Space.simplify_constructor]
          have hKe : (Space.simplifyList ss).isEmpty = false := by
            cases hc : Space.simplifyList ss with
            | nil =>
              have hlen := Space.simplifyList_length ss
              rw [hc] at hlen
              have : ss = [] := List.length_eq_zero.mp hlen.symm
              subst this
              simp at hss
            | cons a b => rfl
          have hKK : Space.simplifyList (Space.simplifyList ss) =
              Space.simplifyList ss :=
            simplifyList_eq_self_of _ (fun x hx => by
              rcases Space.simplifyList_mem hx with ⟨m, hm, rfl⟩
              exact hK m hm)
          simp [hKe, hKK, hany]
    | disjunct ss =>
      have hK : ∀ m ∈ ss, m.simplify.simplify = m.simplify := by
        intro m hm
        have h1 := Space.w_le_wList_of_mem hm
        have h2 : Space.w (Space.disjunct ss) ≤ n + 1 := hw
        apply ih
        simp [Space.w] at h2
        omega
      rw [disjunct_simplify_eq]
      have hmemC : ∀ x ∈ (Space.simplifyList ss).filter (fun s => !s.isEmpty),
          x.simplify = x := by
        intro x hx
        rcases Space.simplifyList_mem (List.mem_of_mem_filter hx) with ⟨m, hm, rfl⟩
        exact hK m hm
      have hneC : ∀ x ∈ (Space.simplifyList ss).filter (fun s => !s.isEmpty),
          (!x.isEmpty) = true := by
        intro x hx
        have h2 := List.of_mem_filter hx
        exact h2
      cases hC : (Space.simplifyList ss).filter (fun s => !s.isEmpty) with
      | nil => simp [examineDecomp, Space.simplify_empty]
      | cons x xs =>
        rw [hC] at hmemC hneC
        cases xs with
        | nil =>
          simp only [examineDecomp]
          exact hmemC x (by simp)
        | cons y ys =>
          have he : examineDecomp (x :: y :: ys) = Space.disjunct (x :: y :: ys) := by
            simp [examineDecomp]
          rw [he, disjunct_simplify_eq]
          rw [simplifyList_eq_self_of _ hmemC]
          rw [List.filter_eq_self.mpr hneC]
          rw [← he]

/-- C7: `simplify` is idempotent — for every space `s`,
`simplify(simplify(s))` equals `simplify(s)`. -/
theorem c7_simplify_idempotent (s : Space) :
    s.simplify.simplify = s.simplify :=
  simplify_idem_aux (Space.w s) s le_rfl

theorem Space.ctorMinusWalk_nil_left (t : Ty) (hd : String) (orig : List Space)
    (idx : Nat) (l2 acc : List Space) (fb : Bool) :
    Space.ctorMinusWalk t hd orig idx [] l2 acc fb =
      if fb then examineDecomp acc else Space.empty := by
  rw [Space.ctorMinusWalk.eq_def]

theorem Space.ctorMinusWalk_cons_nil (t : Ty) (hd : String) (orig : List Space)
    (idx : Nat) (s1 : Space) (r1 acc : List Space) (fb : Bool) :
    Space.ctorMinusWalk t hd orig idx (s1 :: r1) [] acc fb =
      if fb then examineDecomp acc else Space.empty := by
  rw [Space.ctorMinusWalk.eq_def]

theorem Space.ctorMinusWalk_cons_cons (t : Ty) (hd : String) (orig : List Space)
    (idx : Nat) (s1 s2 : Space) (r1 r2 acc : List Space) (fb : Bool) :
    Space.ctorMinusWalk t hd orig idx (s1 :: r1) (s2 :: r2) acc fb =
      if ((s1.intersect s2).simplify).isEmpty then Space.constructor t hd orig
      else
        Space.ctorMinusWalk t hd orig (idx + 1) r1 r2
          (acc ++ [Space.constructor t hd (orig.set idx (s1.minus s2))])
          (fb || !(s1.isSubspace s2)) := by
  rw [Space.ctorMinusWalk.eq_def]

theorem Space.minus_ctor_ctor (t1 t2 : Ty) (hd1 hd2 : String) (a b : List Space) :
    (Space.constructor t1 hd1 a).minus (Space.constructor t2 hd2 b) =
      if !(hd1 == hd2) then Space.constructor t1 hd1 a
      else if b.isEmpty then Space.empty
      else Space.ctorMinusWalk t1 hd1 a 0 a b [] false := by
  rw [Space.minus.eq_def]
  rfl

theorem any_bnot_eq_bnot_all {α : Type} (l : List α) (f : α → Bool) :
    (l.any fun x => !f x) = !l.all f := by
  induction l <;> simp [*]

theorem ctorMinusWalk_spec (t : Ty) (hd : String) (orig : List Space) :
    ∀ (l1 l2 : List Space) (idx : Nat) (acc : List Space) (fb : Bool),
      Space.ctorMinusWalk t hd orig idx l1 l2 acc fb =
        if (l1.zip l2).any (fun p => ((p.1.intersect p.2).simplify).isEmpty) then
          Space.constructor t hd orig
        else if fb || (l1.zip l2).any (fun p => !(p.1.isSubspace p.2)) then
          examineDecomp (acc ++ Space.reconList t hd orig idx l1 l2)
        else Space.empty := by
  intro l1
  induction l1 with
  | nil =>
    intro l2 idx acc fb
    rw [Space.ctorMinusWalk_nil_left]
    simp [Space.reconList]
  | cons s1 r1 ih =>
    intro l2 idx acc fb
    cases l2 with
    | nil =>
      rw [Space.ctorMinusWalk_cons_nil]
      simp [Space.reconList]
    | cons s2 r2 =>
      rw [Space.ctorMinusWalk_cons_cons]
      by_cases hint : ((s1.intersect s2).simplify).isEmpty
      · simp [hint]
      · rw [ih r2 (idx + 1)]
        simp only [List.zip_cons_cons, List.any_cons, hint, Bool.false_or]
        by_cases hany : (r1.zip r2).any
            (fun p => ((p.1.intersect p.2).simplify).isEmpty)
        · simp [hany]
        · simp only [hany, Bool.false_eq_true, if_false]
          have hrec : (acc ++ [Space.constructor t hd (orig.set idx (s1.minus s2))])
              ++ Space.reconList t hd orig (idx + 1) r1 r2 =
              acc ++ Space.reconList t hd orig idx (s1 :: r1) (s2 :: r2) := by
            rw [List.append_assoc]
            simp [Space.reconList]
          rw [hrec]
          by_cases hsub : s1.isSubspace s2 <;>
            by_cases hbad : (r1.zip r2).any (fun p => !(p.1.isSubspace p.2)) <;>
            simp [hsub, hbad, Bool.or_assoc]
  
theorem reconList_eq_range (t : Ty) (hd : String) (orig : List Space) :
    ∀ (l1 l2 : List Space) (idx : Nat),
      Space.reconList t hd orig idx l1 l2 =
        (List.range (min l1.length l2.length)).map (fun j =>
          Space.constructor t hd (orig.set (idx + j)
            ((l1.getD j Space.empty).minus (l2.getD j Space.empty)))) := by
  intro l1
  induction l1 with
  | nil =>
    intro l2 idx
    simp [Space.reconList]
  | cons s1 r1 ih =>
    intro l2 idx
    cases l2 with
    | nil => simp [Space.reconList]
    | cons s2 r2 =>
      simp only [Space.reconList]
      rw [ih r2 (idx + 1)]
      simp only [List.length_cons, Nat.succ_min_succ, List.range_succ_eq_map,
        List.map_cons, List.map_map]
      congr 1
      all_goals simp
      all_goals (intro j hj1 hj2; congr 1; omega)

/-- C2: the subtraction of two constructor spaces
`Constructor(T, h1, a) − Constructor(U, h2, b)`, for all child lists:
mismatched heads (of any arities) leave the left space unchanged; an
empty `b` (head-only pattern) yields `Empty` even when the left carries a
payload; an index whose child intersection simplifies to `Empty` leaves
the left space unchanged; if every left child is a subspace of its right
counterpart the result is `Empty`; otherwise the result is the disjunct
(collapsing an empty or singleton list as the `Disjunct` invariant
prescribes, via `examineDecomp`) of the `N` reconstructions, where the
`i`-th reconstruction is the left constructor with only child `i`
replaced by `a_i − b_i`.  The source loop walks the two child lists in
parallel and stops at the shorter one, so `N` and the index pairs range
over `min(|a|, |b|)` — the constructor arity on every pair the invariant
of equal arities admits. -/
theorem c2_constructor_minus_constructor (t1 t2 : Ty) (hd1 hd2 : String)
    (a b : List Space) :
    (Space.constructor t1 hd1 a).minus (Space.constructor t2 hd2 b) =
      if hd1 ≠ hd2 then Space.constructor t1 hd1 a
      else if b.isEmpty then Space.empty
      else if (a.zip b).any (fun p => ((p.1.intersect p.2).simplify).isEmpty) then
        Space.constructor t1 hd1 a
      else if (a.zip b).all (fun p => p.1.isSubspace p.2) then Space.empty
      else
        examineDecomp ((List.range (min a.length b.length)).map (fun i =>
          Space.constructor t1 hd1 (a.set i
            ((a.getD i Space.empty).minus (b.getD i Space.empty))))) := by
  rw [Space.minus_ctor_ctor]
  by_cases hh : hd1 = hd2
  · subst hh
    simp only [BEq.refl, Bool.not_true, Bool.false_eq_true, if_false, ne_eq,
      not_true_eq_false]
    by_cases hb : b.isEmpty
    · simp [hb]
    · simp only [hb, Bool.false_eq_true, if_false]
      rw [ctorMinusWalk_spec]
      by_cases hint : (a.zip b).any
          (fun p => ((p.1.intersect p.2).simplify).isEmpty)
      · simp [hint]
      · simp only [hint, Bool.false_eq_true, if_false, Bool.false_or]
        rw [any_bnot_eq_bnot_all]
        by_cases hall : (a.zip b).all (fun p => p.1.isSubspace p.2)
        · simp [hall]
        · simp only [hall, Bool.not_false, if_true, Bool.false_eq_true, if_false,
            List.nil_append]
          rw [reconList_eq_range]
          congr 1
          apply List.map_congr_left
          intro j hj
          simp
  · have hne : (hd1 == hd2) = false := by
      simp [hh]
    simp [hne, hh]

/-- C2 witness: three concrete constructor subtractions.  A head mismatch
between constructors of different arities (`.some(true) − .none`) leaves
the left space unchanged; a head-only right pattern subtracted from a
payload-carrying left (`.some(true) − .some`) yields the empty space; and
subtracting a constructor from an identical one-child constructor yields
the empty space. -/
theorem c2_witness :
    (Space.constructor Ty.bool "some" [Space.boolConst true]).minus
      (Space.constructor Ty.bool "none" []) =
      Space.constructor Ty.bool "some" [Space.boolConst true] ∧
    (Space.constructor Ty.bool "some" [Space.boolConst true]).minus
      (Space.constructor Ty.bool "some" []) = Space.empty ∧
    (Space.constructor Ty.bool "c" [Space.boolConst true]).minus
      (Space.constructor Ty.bool "c" [Space.boolConst true]) = Space.empty := by
  have hi : (Space.boolConst true).intersect (Space.boolConst true) =
      Space.boolConst true := by
    rw [Space.intersect.eq_def]
    rfl
  have hsub : (Space.boolConst true).isSubspace (Space.boolConst true) = true := by
    rw [Space.isSubspace.eq_def]
    rfl
  refine ⟨?_, ?_, ?_⟩
  · have h := c2_constructor_minus_constructor Ty.bool Ty.bool "some" "none"
      [Space.boolConst true] []
    rw [h]
    simp
  · have h := c2_constructor_minus_constructor Ty.bool Ty.bool "some" "some"
      [Space.boolConst true] []
    rw [h]
    simp
  · have h := c2_constructor_minus_constructor Ty.bool Ty.bool "c" "c"
      [Space.boolConst true] [Space.boolConst true]
    rw [h]
    simp [hi, hsub, Space.simplify_boolConst, Space.isEmpty, Space.getKind]
